import Mathlib

/-!
Verification of the OpenSSH configuration parser of the repository
(`plugins/module_utils/ssh_parser.py`, duplicated verbatim inside
`plugins/modules/sshd_info.py`).

The development shallowly embeds the Python source:
* `OptionRecord` / `OptionStore` mirror the per-scope option dictionaries of
  the `OptionStore` class; Python dicts (which preserve insertion order) are
  modelled as insertion-ordered association lists.
* `shlexSplit` models Python's `shlex.split(line)` (POSIX mode,
  `whitespace_split=True`, comments disabled), returning `none` where the
  Python function raises `ValueError` (unbalanced quote, dangling escape).
* `FS` packages the filesystem collaborators used by the parser
  (`os.path.abspath`, `os.path.exists`, `os.path.isfile`, `io.open` +
  `readlines`, `glob.glob`), as the specification's §6 consumed interfaces.
* `parseF` is `SshConfigParser.parse`; the `fuel` parameter only makes the
  recursion structural.  Since every recursive call increases `depth` by one
  and the source returns as soon as `depth > 20`, a fuel of `22` is never
  exhausted from any starting `depth ≥ 0`: when the fuel hits `0` the depth
  is at least `startingDepth + 22 > 20`, where the source also returns the
  registry unchanged.  `parse` therefore agrees with the source on all inputs.
-/

/-! ### String primitives

Python's `str.lower`, `str.strip`, `str.startswith` and lexicographic
string comparison, re-implemented over character lists so that all
definitions evaluate inside the kernel.  Case mapping is the ASCII one
(the configuration directives concerned are ASCII). -/

/-- ASCII lower-casing of one character (`str.lower` restricted to ASCII). -/
def charLower (c : Char) : Char :=
  if 'A' ≤ c ∧ c ≤ 'Z' then Char.ofNat (c.toNat + 32) else c

/-- `str.lower` (ASCII). -/
def strLower (s : String) : String :=
  String.mk (s.toList.map charLower)

/-- Python `str.isspace` members relevant to `str.strip()`. -/
def pyIsSpace (c : Char) : Bool :=
  c = ' ' ∨ c = '\t' ∨ c = '\n' ∨ c = '\r' ∨ c = '\x0b' ∨ c = '\x0c'

/-- `str.strip()` with no argument. -/
def strTrim (s : String) : String :=
  String.mk (((s.toList.dropWhile pyIsSpace).reverse.dropWhile pyIsSpace).reverse)

/-- `line.startswith('#')`. -/
def startsWithHash (s : String) : Bool :=
  match s.toList with
  | '#' :: _ => true
  | _ => false

/-- Lexicographic comparison of character lists by code point, the order
Python's `sorted` uses on strings. -/
def listLe : List Char → List Char → Bool
  | [], _ => true
  | _ :: _, [] => false
  | a :: as, b :: bs =>
      if a.toNat < b.toNat then true
      else if b.toNat < a.toNat then false
      else listLe as bs

/-- `a <= b` on strings, by code points. -/
def strLeB (a b : String) : Bool := listLe a.toList b.toList

/-- One option record of `OptionStore._options`:
`{"name": ..., "value": ..., "location": ..., "appearance": [...]}`. -/
structure OptionRecord where
  name : String
  value : String
  location : String
  appearance : List String
deriving DecidableEq, Repr

/-- Association-list lookup for the `_options` dict (keys are lower-cased). -/
def optFind : List (String × OptionRecord) → String → Option OptionRecord
  | [], _ => none
  | kv :: rest, k => if kv.1 = k then some kv.2 else optFind rest k

/-- Replace the value stored under key `k` (first occurrence), modelling
mutation of an existing dict entry; appends when the key is absent. -/
def optSet : List (String × OptionRecord) → String → OptionRecord →
    List (String × OptionRecord)
  | [], k, r => [(k, r)]
  | kv :: rest, k, r => if kv.1 = k then (k, r) :: rest else kv :: optSet rest k r

/-- The `OptionStore` class: options of one scope (`"global"` or a `Match`
condition). `options` models the insertion-ordered `_options` dict. -/
structure OptionStore where
  scope_name : String
  location : Option String
  appearance : List String
  options : List (String × OptionRecord)
deriving DecidableEq, Repr

/-- `OptionStore.__init__`. -/
def OptionStore.empty (scope : String) : OptionStore :=
  ⟨scope, none, [], []⟩

/-- `OptionStore.update_appearance`: called for each `Match ...` line. -/
def OptionStore.update_appearance (s : OptionStore) (filepath : String) :
    OptionStore :=
  { s with
    location := match s.location with
      | none => some filepath
      | some l => some l
    appearance :=
      if filepath ∈ s.appearance then s.appearance
      else s.appearance ++ [filepath] }

/-- `OptionStore.add`: first occurrence of a (case-insensitive) key fixes
`name`/`value`/`location`; later occurrences only extend `appearance` with
previously unseen files. -/
def OptionStore.add (s : OptionStore) (key value filepath : String) :
    OptionStore :=
  let k_lower := strLower key
  match optFind s.options k_lower with
  | none =>
      { s with options :=
          s.options ++ [(k_lower, ⟨key, value, filepath, [filepath]⟩)] }
  | some r =>
      if filepath ∈ r.appearance then s
      else
        let r2 := { r with appearance := r.appearance ++ [filepath] }
        { s with options := optSet s.options k_lower r2 }

/-- The parser registry `self.registry`: scope id → `OptionStore`,
insertion-ordered as a Python dict. -/
abbrev Registry := List (String × OptionStore)

def regFind : Registry → String → Option OptionStore
  | [], _ => none
  | kv :: rest, s => if kv.1 = s then some kv.2 else regFind rest s

def regSet : Registry → String → OptionStore → Registry
  | [], s, st => [(s, st)]
  | kv :: rest, s, st => if kv.1 = s then (s, st) :: rest else kv :: regSet rest s st

/-- `SshConfigParser.__init__`: registry holding only the global store. -/
def initRegistry : Registry := [("global", OptionStore.empty "global")]

/-- `SshConfigParser._get_store`: create-on-miss, then return the store. -/
def getStore (reg : Registry) (scope : String) : Registry × OptionStore :=
  match regFind reg scope with
  | some st => (reg, st)
  | none =>
      let st := OptionStore.empty scope
      (regSet reg scope st, st)

/-- Registry effect of a `Match <condition>` line (`_get_store` followed by
`update_appearance`). -/
def matchRegister (reg : Registry) (scope filepath : String) : Registry :=
  let p := getStore reg scope
  regSet p.1 scope (p.2.update_appearance filepath)

/-- Registry effect of a plain option line (`_get_store` followed by `add`). -/
def optionRegister (reg : Registry) (scope key value filepath : String) :
    Registry :=
  let p := getStore reg scope
  regSet p.1 scope (p.2.add key value filepath)

/-! ### shlex.split model -/

/-- Lexer mode: outside quotes, inside `'...'`, inside `"..."`. -/
inductive QMode where
  | norm
  | single
  | double
deriving DecidableEq, Repr

def shlexWhitespace (c : Char) : Bool :=
  c = ' ' ∨ c = '\t' ∨ c = '\r' ∨ c = '\n'

/-- Core of `shlex.split` in POSIX mode with `whitespace_split=True` and no
comment characters.  `cur = none` means "not inside a token" (so `''` still
produces an empty token); `none` is returned where Python raises
`ValueError` (EOF inside a quote or right after a backslash). -/
def shlexAux : List Char → QMode → Option (List Char) → List String →
    Option (List String)
  | [], mode, cur, acc =>
      match mode with
      | QMode.norm =>
          match cur with
          | none => some acc
          | some w => some (acc ++ [String.mk w])
      | _ => none
  | c :: rest, QMode.norm, cur, acc =>
      if shlexWhitespace c then
        match cur with
        | none => shlexAux rest QMode.norm none acc
        | some w => shlexAux rest QMode.norm none (acc ++ [String.mk w])
      else if c = '\'' then
        shlexAux rest QMode.single (some (cur.getD [])) acc
      else if c = '"' then
        shlexAux rest QMode.double (some (cur.getD [])) acc
      else if c = '\\' then
        match rest with
        | [] => none
        | d :: rest' => shlexAux rest' QMode.norm (some (cur.getD [] ++ [d])) acc
      else
        shlexAux rest QMode.norm (some (cur.getD [] ++ [c])) acc
  | c :: rest, QMode.single, cur, acc =>
      if c = '\'' then shlexAux rest QMode.norm cur acc
      else shlexAux rest QMode.single (some (cur.getD [] ++ [c])) acc
  | c :: rest, QMode.double, cur, acc =>
      if c = '"' then shlexAux rest QMode.norm cur acc
      else if c = '\\' then
        match rest with
        | [] => none
        | d :: rest' =>
            let piece := if d = '\\' ∨ d = '"' then [d] else ['\\', d]
            shlexAux rest' QMode.double (some (cur.getD [] ++ piece)) acc
      else shlexAux rest QMode.double (some (cur.getD [] ++ [c])) acc

/-- `shlex.split(s)`. -/
def shlexSplit (s : String) : Option (List String) :=
  shlexAux s.toList QMode.norm none []

/-- `" ".join(parts[1:])` (and `""` when there are no further tokens). -/
def joinSpace : List String → String
  | [] => ""
  | [x] => x
  | x :: rest => x ++ " " ++ joinSpace rest

/-! ### Path collaborators -/

/-- `os.path.isabs` on POSIX. -/
def isabs (p : String) : Bool :=
  match p.toList with
  | '/' :: _ => true
  | _ => false

/-- `os.path.join(a, b)` on POSIX (two arguments). -/
def pathJoin (a b : String) : String :=
  if isabs b then b
  else if a = "" then b
  else if a.toList.getLast? = some '/' then a ++ b
  else a ++ "/" ++ b

/-- Length of the prefix of `cs` up to and including the last `'/'`
(`p.rfind('/') + 1`; `0` when there is no slash). -/
def lastSlashPos : List Char → Nat
  | [] => 0
  | c :: rest =>
      let r := lastSlashPos rest
      if r > 0 then r + 1 else if c = '/' then 1 else 0

/-- `os.path.dirname` on POSIX. -/
def dirname (p : String) : String :=
  let cs := p.toList
  let head := cs.take (lastSlashPos cs)
  if head ≠ [] ∧ ¬ head.all (fun c => c = '/') then
    String.mk ((head.reverse.dropWhile (fun c => c = '/')).reverse)
  else String.mk head

/-- The filesystem collaborators consumed by the parser (§6 of the spec):
absolute-path normalisation, existence and regular-file checks, permissive
line reading (`none` models an `IOError`/`OSError`), and glob expansion
(returned in arbitrary, collaborator-chosen order). -/
structure FS where
  abspath : String → String
  pathExists : String → Bool
  isfile : String → Bool
  readLines : String → Option (List String)
  glob : String → List String

/-- Insertion step of the sort below. -/
def orderedInsertStr (x : String) : List String → List String
  | [] => [x]
  | y :: ys => if strLeB x y then x :: y :: ys else y :: orderedInsertStr x ys

/-- `sorted(...)` over the glob result: Python's ascending lexicographic
sort of strings (insertion sort; any stable comparison sort of strings
produces this list, as proved below by antisymmetry). -/
def sortStrings : List String → List String
  | [] => []
  | x :: xs => orderedInsertStr x (sortStrings xs)

/-! ### The recursive parser

`recurse reg path scope stack` stands for the recursive
`self.parse(path, scope, depth + 1, stack)` call at one smaller fuel. -/

/-- `SshConfigParser._handle_include`. -/
def handleIncludeW (fs : FS) (base_dir : String)
    (recurse : Registry → String → String → List String → Registry)
    (reg : Registry) (pattern active_scope : String) (call_stack : List String) :
    Registry :=
  let pat := if ¬ isabs pattern then pathJoin base_dir pattern else pattern
  (sortStrings (fs.glob pat)).foldl
    (fun r file_path => recurse r file_path active_scope call_stack) reg

/-- Processing of one line of the `for line in lines` loop of
`SshConfigParser.parse`: takes and returns the pair
(registry, current `local_scope`). -/
def stepLineW (fs : FS) (base_dir : String)
    (recurse : Registry → String → String → List String → Registry)
    (abs_path : String) (new_stack : List String)
    (reg : Registry) (local_scope line : String) : Registry × String :=
  let l := strTrim line
  if l = "" ∨ startsWithHash l then (reg, local_scope)
  else
    match shlexSplit l with
    | none => (reg, local_scope)
    | some [] => (reg, local_scope)
    | some (key :: restToks) =>
      let value := joinSpace restToks
      if strLower key = "include" then
        (handleIncludeW fs base_dir recurse reg value local_scope new_stack,
         local_scope)
      else if strLower key = "match" then
        if strLower value = "all" then (reg, "global")
        else (matchRegister reg value abs_path, value)
      else (optionRegister reg local_scope key value abs_path, local_scope)

/-- The `for line in lines` loop of `SshConfigParser.parse`. -/
def processLinesW (fs : FS) (base_dir : String)
    (recurse : Registry → String → String → List String → Registry)
    (abs_path : String) (new_stack : List String) :
    List String → Registry → String → Registry × String
  | [], reg, local_scope => (reg, local_scope)
  | line :: rest, reg, local_scope =>
      let p := stepLineW fs base_dir recurse abs_path new_stack reg local_scope line
      processLinesW fs base_dir recurse abs_path new_stack rest p.1 p.2

/-- `SshConfigParser.parse`, with a structural `fuel` (see the header note:
fuel `22` can never run out because of the `depth > 20` guard). -/
def parseF : Nat → FS → String → Registry → String → String → Nat →
    List String → Registry
  | 0, _, _, reg, _, _, _, _ => reg
  | Nat.succ fuel, fs, base_dir, reg, filepath, current_scope, depth,
      call_stack =>
    if depth > 20 then reg
    else
      let abs_path := fs.abspath filepath
      if abs_path ∈ call_stack then reg
      else if ¬ (fs.pathExists abs_path ∧ fs.isfile abs_path) then reg
      else
        match fs.readLines abs_path with
        | none => reg
        | some lines =>
          let new_stack := abs_path :: call_stack
          (processLinesW fs base_dir
            (fun r p sc stk => parseF fuel fs base_dir r p sc (depth + 1) stk)
            abs_path new_stack lines reg current_scope).1

/-- `SshConfigParser.parse` (the top-level entry; `call_stack = []` models
the `call_stack=None` default). -/
def parse (fs : FS) (base_dir : String) (reg : Registry)
    (filepath current_scope : String) (depth : Nat)
    (call_stack : List String) : Registry :=
  parseF 22 fs base_dir reg filepath current_scope depth call_stack

/-! ### Structured output (`to_dict` / `get_structured_data`) -/

/-- External form of one option:
`{ "value": ..., "location": ..., "appearance": [...] }` (the internal
`"name"` key is stripped by `to_dict`). -/
structure OptionExport where
  value : String
  location : String
  appearance : List String
deriving DecidableEq, Repr

/-- `OptionStore.to_dict` for a non-global scope. -/
structure MatchEntry where
  condition : String
  location : Option String
  appearance : List String
  options : List (String × OptionExport)
deriving DecidableEq, Repr

/-- The `options_export` comprehension of `OptionStore.to_dict`:
re-key each record by its original-cased `name` and drop the `name` field. -/
def OptionStore.exportOptions (s : OptionStore) : List (String × OptionExport) :=
  s.options.map (fun kv => (kv.2.name, ⟨kv.2.value, kv.2.location, kv.2.appearance⟩))

/-- `OptionStore.to_dict` on a non-global store. -/
def OptionStore.toMatchEntry (s : OptionStore) : MatchEntry :=
  ⟨s.scope_name, s.location, s.appearance, s.exportOptions⟩

/-- A value of the result dict of `get_structured_data`: either one global
option's export, or the list stored under the `"Match"` key. -/
inductive OutVal where
  | opt : OptionExport → OutVal
  | matches : List MatchEntry → OutVal
deriving DecidableEq, Repr

/-- Python dict assignment `d[k] = v` on the result dict: replace the first
binding of `k` when present, append otherwise. -/
def dictSet (l : List (String × OutVal)) (k : String) (v : OutVal) :
    List (String × OutVal) :=
  if l.any (fun kv => kv.1 = k) then
    l.map (fun kv => if kv.1 = k then (k, v) else kv)
  else l ++ [(k, v)]

/-- `SshConfigParser.get_structured_data`.  `registry["global"]` always
exists for registries produced by the class (it is created in `__init__`);
the `none` branch models the unreachable `KeyError` as an empty dict. -/
def get_structured_data (reg : Registry) : List (String × OutVal) :=
  let result :=
    match regFind reg "global" with
    | some s => s.exportOptions.map (fun kv => (kv.1, OutVal.opt kv.2))
    | none => []
  let match_list :=
    (reg.filter (fun kv => ¬ kv.1 = "global")).map (fun kv => kv.2.toMatchEntry)
  if match_list.isEmpty then result
  else dictSet result "Match" (OutVal.matches match_list)

/-- The `main()` of `plugins/modules/sshd_info.py`, restricted to its
parsing behaviour: compute `base_dir = dirname(config_path)`, fail hard
(`fail_json`) when the root file does not exist, otherwise parse and return
the structured data (`exit_json`). -/
def mainModel (fs : FS) (config_path : String) :
    Except String (List (String × OutVal)) :=
  let base_dir := dirname config_path
  if fs.pathExists config_path then
    Except.ok (get_structured_data
      (parse fs base_dir initRegistry config_path "global" 0 []))
  else
    Except.error ("Config file not found: " ++ config_path)

/-! ### Derived predicates and registration folds -/

/-- `if x not in l: l.append(x)` — the appearance-extension step shared by
`OptionStore.add` and `OptionStore.update_appearance`. -/
def appendNew (l : List String) (x : String) : List String :=
  if x ∈ l then l else l ++ [x]

/-- Order-preserving de-duplication keeping the first occurrence of each
element — the cumulative effect of repeated `appendNew` steps. -/
def firstDedup (l : List String) : List String :=
  l.foldl appendNew []

/-- A sequence of `OptionStore.add` registrations `(key, value, filepath)`
applied in file-processing order. -/
def registerAll (s : OptionStore) (regs : List (String × String × String)) :
    OptionStore :=
  regs.foldl (fun st r => st.add r.1 r.2.1 r.2.2) s

/-- Invariant of one option record: the defining location is the first
appearance entry, and the appearance list has no duplicates. -/
def recordWF (r : OptionRecord) : Prop :=
  r.appearance.head? = some r.location ∧ r.appearance.Nodup

/-- All records of a store satisfy `recordWF`. -/
def storeWF (s : OptionStore) : Prop :=
  ∀ kv ∈ s.options, recordWF kv.2

/-- The registry's scope identifiers are pairwise distinct (Python dict
keys), so each `Match` condition owns exactly one scope entry. -/
def keysNodup (reg : Registry) : Prop :=
  (reg.map Prod.fst).Nodup

/-- Every stored option key of one store is the lower-casing of its
record's name and is neither `"match"` nor `"include"` (those line keys are
dispatched as directives, never registered). -/
def storeKeysOK (st : OptionStore) : Prop :=
  ∀ orr ∈ st.options, orr.1 = strLower orr.2.name ∧
    orr.1 ≠ "match" ∧ orr.1 ≠ "include"

/-- `storeKeysOK` for every scope of the registry. -/
def optKeysOK (reg : Registry) : Prop :=
  ∀ kv ∈ reg, storeKeysOK kv.2

/-! ### Concrete filesystem fixtures -/

/-- A trivial recursion argument for exercising the per-line step in
isolation: the recursive call leaves the registry unchanged. -/
def noRecurse : Registry → String → String → List String → Registry :=
  fun r _ _ _ => r

/-- An inert filesystem: nothing exists, nothing reads, globs are empty. -/
def fsEmpty : FS :=
  { abspath := fun p => p
    pathExists := fun _ => false
    isfile := fun _ => false
    readLines := fun _ => none
    glob := fun _ => [] }

/-- Mutual-include cycle: `/a` includes `/b`, `/b` includes `/a`, each with
one plain option of its own. -/
def fsCycle : FS :=
  { abspath := fun p => p
    pathExists := fun p => p = "/a" ∨ p = "/b"
    isfile := fun p => p = "/a" ∨ p = "/b"
    readLines := fun p =>
      if p = "/a" then some ["OptA 1", "Include /b"]
      else if p = "/b" then some ["OptB 2", "Include /a"]
      else none
    glob := fun p => if p = "/a" ∨ p = "/b" then [p] else [] }

/-- A shared snippet `/S` included from two independent branches: the root
`/r` includes `/A` and `/B`; each of those opens its own `Match` scope and
then includes `/S`. -/
def fsShared : FS :=
  { abspath := fun p => p
    pathExists := fun p => p = "/r" ∨ p = "/A" ∨ p = "/B" ∨ p = "/S"
    isfile := fun p => p = "/r" ∨ p = "/A" ∨ p = "/B" ∨ p = "/S"
    readLines := fun p =>
      if p = "/r" then some ["Include /A", "Include /B"]
      else if p = "/A" then some ["Match ma", "Include /S"]
      else if p = "/B" then some ["Match mb", "Include /S"]
      else if p = "/S" then some ["Opt v"]
      else none
    glob := fun p =>
      if p = "/A" ∨ p = "/B" ∨ p = "/S" then [p] else [] }

/-- The §8 match-merge sample: root and included file both declare
`Match User bob`. -/
def fsMerge : FS :=
  { abspath := fun p => p
    pathExists := fun p => p = "/root.conf" ∨ p = "/extra"
    isfile := fun p => p = "/root.conf" ∨ p = "/extra"
    readLines := fun p =>
      if p = "/root.conf" then
        some ["Match User bob", "Banner one", "Include /extra"]
      else if p = "/extra" then
        some ["Match User bob", "Banner two", "X11Forwarding yes"]
      else none
    glob := fun p => if p = "/extra" then [p] else [] }

/-- `Match All` after `Match X` in a single file. -/
def fsReset : FS :=
  { abspath := fun p => p
    pathExists := fun p => p = "/c"
    isfile := fun p => p = "/c"
    readLines := fun p =>
      if p = "/c" then some ["Match X", "A 1", "Match All", "B 2"]
      else none
    glob := fun _ => [] }

/-- Include ordering: the glob collaborator reports `b.conf` before
`a.conf`; both set the same option to different values. -/
def fsGlob : FS :=
  { abspath := fun p => p
    pathExists := fun p =>
      p = "/r" ∨ p = "/inc/a.conf" ∨ p = "/inc/b.conf"
    isfile := fun p =>
      p = "/r" ∨ p = "/inc/a.conf" ∨ p = "/inc/b.conf"
    readLines := fun p =>
      if p = "/r" then some ["Include /inc/*.conf"]
      else if p = "/inc/a.conf" then some ["Port 1"]
      else if p = "/inc/b.conf" then some ["Port 2"]
      else none
    glob := fun p =>
      if p = "/inc/*.conf" then ["/inc/b.conf", "/inc/a.conf"] else [] }

/-- Base-relative include resolution: the including file lives in
`/base/sub`, but the relative pattern `x.conf` resolves against the base
directory `/base`; both candidate targets exist with different values. -/
def fsBaseRel : FS :=
  { abspath := fun p => p
    pathExists := fun p =>
      p = "/base/sub/main" ∨ p = "/base/x.conf" ∨ p = "/base/sub/x.conf"
    isfile := fun p =>
      p = "/base/sub/main" ∨ p = "/base/x.conf" ∨ p = "/base/sub/x.conf"
    readLines := fun p =>
      if p = "/base/sub/main" then some ["Include x.conf"]
      else if p = "/base/x.conf" then some ["Who base"]
      else if p = "/base/sub/x.conf" then some ["Who sub"]
      else none
    glob := fun p =>
      if p = "/base/x.conf" then ["/base/x.conf"]
      else if p = "/base/sub/x.conf" then ["/base/sub/x.conf"]
      else [] }

/-! ### Helper lemmas -/

/-- One unfolding of the recursive parser: the guards run in source order
(depth ceiling, cycle check, existence/regular-file check, read), and the
line loop recurses at `depth + 1` with the current local scope. -/
theorem parseF_succ (fuel : Nat) (fs : FS) (bd : String) (reg : Registry)
    (fp sc : String) (depth : Nat) (stack : List String) :
    parseF (fuel + 1) fs bd reg fp sc depth stack =
      if depth > 20 then reg
      else
        if fs.abspath fp ∈ stack then reg
        else if ¬ (fs.pathExists (fs.abspath fp) ∧ fs.isfile (fs.abspath fp))
          then reg
        else
          match fs.readLines (fs.abspath fp) with
          | none => reg
          | some lines =>
            (processLinesW fs bd
              (fun r p sc2 stk => parseF fuel fs bd r p sc2 (depth + 1) stk)
              (fs.abspath fp) (fs.abspath fp :: stack) lines reg sc).1 := rfl

/-! ### Claim theorems -/

/-- C8: calling `parse` with a depth argument exceeding the fixed limit of
20 returns immediately, leaving the registry unchanged (silent truncation,
no error value exists in the signature). -/
theorem depth_ceiling_frame (fs : FS) (bd : String) (reg : Registry)
    (fp sc : String) (depth : Nat) (stack : List String) (h : 20 < depth) :
    parse fs bd reg fp sc depth stack = reg := by
  show parseF (21 + 1) fs bd reg fp sc depth stack = reg
  rw [parseF_succ]
  simp [h]

theorem depth_ceiling_frame_witness :
    20 < 21 ∧ parse fsEmpty "/" initRegistry "/x" "global" 21 [] = initRegistry :=
  ⟨by decide,
   depth_ceiling_frame fsEmpty "/" initRegistry "/x" "global" 21 [] (by decide)⟩

/-- C9: missing or non-regular include targets, unreadable files, inclusion
cycles, exceeded depth, and lines with malformed quoting all contribute
nothing and never abort the parse; only a missing root file makes the
module entry point fail hard. -/
theorem error_taxonomy :
    (∀ (fs : FS) (bd : String) (reg : Registry) (fp sc : String)
        (depth : Nat) (stack : List String),
      fs.pathExists (fs.abspath fp) = false ∨ fs.isfile (fs.abspath fp) = false →
      parse fs bd reg fp sc depth stack = reg) ∧
    (∀ (fs : FS) (bd : String) (reg : Registry) (fp sc : String)
        (depth : Nat) (stack : List String),
      fs.readLines (fs.abspath fp) = none →
      parse fs bd reg fp sc depth stack = reg) ∧
    (∀ (fs : FS) (bd : String) (reg : Registry) (fp sc : String)
        (depth : Nat) (stack : List String),
      fs.abspath fp ∈ stack →
      parse fs bd reg fp sc depth stack = reg) ∧
    (∀ (fs : FS) (bd : String) (reg : Registry) (fp sc : String)
        (depth : Nat) (stack : List String),
      20 < depth →
      parse fs bd reg fp sc depth stack = reg) ∧
    (∀ (fs : FS) (bd : String)
        (recurse : Registry → String → String → List String → Registry)
        (ap : String) (stack : List String) (reg : Registry) (sc line : String),
      shlexSplit (strTrim line) = none →
      stepLineW fs bd recurse ap stack reg sc line = (reg, sc)) ∧
    (∀ (fs : FS) (cp : String),
      fs.pathExists cp = false →
      mainModel fs cp = Except.error ("Config file not found: " ++ cp)) := by
  refine ⟨?_, ?_, ?_, ?_, ?_, ?_⟩
  · intro fs bd reg fp sc depth stack h
    show parseF (21 + 1) fs bd reg fp sc depth stack = reg
    rw [parseF_succ]
    rcases h with h | h <;> simp [h]
  · intro fs bd reg fp sc depth stack h
    show parseF (21 + 1) fs bd reg fp sc depth stack = reg
    rw [parseF_succ]
    simp [h]
  · intro fs bd reg fp sc depth stack h
    show parseF (21 + 1) fs bd reg fp sc depth stack = reg
    rw [parseF_succ]
    simp [h]
  · intro fs bd reg fp sc depth stack h
    show parseF (21 + 1) fs bd reg fp sc depth stack = reg
    rw [parseF_succ]
    simp [h]
  · intro fs bd recurse ap stack reg sc line h
    simp [stepLineW, h]
  · intro fs cp h
    unfold mainModel
    simp [h]

theorem error_taxonomy_witness :
    fsEmpty.pathExists (fsEmpty.abspath "/x") = false ∧
    parse fsEmpty "/" initRegistry "/x" "global" 0 [] = initRegistry ∧
    fsEmpty.readLines (fsEmpty.abspath "/x") = none ∧
    fsEmpty.abspath "/a" ∈ ["/a"] ∧
    parse fsEmpty "/" initRegistry "/a" "global" 0 ["/a"] = initRegistry ∧
    20 < 25 ∧
    parse fsEmpty "/" initRegistry "/x" "global" 25 [] = initRegistry ∧
    shlexSplit (strTrim "Bad \"unclosed") = none ∧
    stepLineW fsEmpty "/" (fun r _ _ _ => r) "/f" [] initRegistry "global"
        "Bad \"unclosed" = (initRegistry, "global") ∧
    mainModel fsEmpty "/x" = Except.error ("Config file not found: " ++ "/x") :=
  ⟨by decide,
   error_taxonomy.1 fsEmpty "/" initRegistry "/x" "global" 0 [] (Or.inl (by decide)),
   by decide,
   by decide,
   error_taxonomy.2.2.1 fsEmpty "/" initRegistry "/a" "global" 0 ["/a"] (by decide),
   by decide,
   error_taxonomy.2.2.2.1 fsEmpty "/" initRegistry "/x" "global" 25 [] (by decide),
   by decide,
   error_taxonomy.2.2.2.2.1 fsEmpty "/" (fun r _ _ _ => r) "/f" [] initRegistry
     "global" "Bad \"unclosed" (by decide),
   error_taxonomy.2.2.2.2.2 fsEmpty "/x" (by decide)⟩

/-- C2: an `Include` line never changes the including file's local scope:
the scope component returned by the line step equals the scope before the
line, whatever the recursive parse of the included files does (the
recursion returns only a registry, so no `Match` inside an included file
can leak back). -/
theorem include_scope_isolation (fs : FS) (bd : String)
    (recurse : Registry → String → String → List String → Registry)
    (ap : String) (stack : List String) (reg : Registry) (sc line key : String)
    (toks : List String)
    (hsplit : shlexSplit (strTrim line) = some (key :: toks))
    (hkey : strLower key = "include") :
    (stepLineW fs bd recurse ap stack reg sc line).2 = sc := by
  by_cases hskip : strTrim line = "" ∨ startsWithHash (strTrim line) = true
  · simp [stepLineW, hskip]
  · simp [stepLineW, hskip, hsplit, hkey]

theorem include_scope_isolation_witness :
    shlexSplit (strTrim "Include /b") = some ["Include", "/b"] ∧
    strLower "Include" = "include" ∧
    (stepLineW fsEmpty "/" (fun r _ _ _ => r) "/f" [] initRegistry "global"
        "Include /b").2 = "global" :=
  ⟨by decide, by decide,
   include_scope_isolation fsEmpty "/" (fun r _ _ _ => r) "/f" [] initRegistry
     "global" "Include /b" "Include" ["/b"] (by decide) (by decide)⟩

/-- C3: the two-file mutual-include cycle terminates with each file's own
non-Include directive registered exactly once; and the same snippet `/S`
included from two independent branches is parsed both times (its option
lands in both `Match` scopes). -/
theorem cycle_termination_examples :
    parse fsCycle "/" initRegistry "/a" "global" 0 [] =
      [("global", ⟨"global", none, [],
        [("opta", ⟨"OptA", "1", "/a", ["/a"]⟩),
         ("optb", ⟨"OptB", "2", "/b", ["/b"]⟩)]⟩)] ∧
    parse fsShared "/" initRegistry "/r" "global" 0 [] =
      [("global", ⟨"global", none, [], []⟩),
       ("ma", ⟨"ma", some "/A", ["/A"], [("opt", ⟨"Opt", "v", "/S", ["/S"]⟩)]⟩),
       ("mb", ⟨"mb", some "/B", ["/B"], [("opt", ⟨"Opt", "v", "/S", ["/S"]⟩)]⟩)] :=
  ⟨by decide, by decide⟩

/-- C5: a `Match` line whose value lower-cases to `all` resets the local
scope to global and records nothing; any other value becomes the scope
verbatim and a match-entry is recorded; in the sample file, the option
after `Match All` registers in the global scope, not in scope `X`. -/
theorem match_all_reset :
    (∀ (fs : FS) (bd : String)
        (recurse : Registry → String → String → List String → Registry)
        (ap : String) (stack : List String) (reg : Registry)
        (sc line key : String) (toks : List String),
      shlexSplit (strTrim line) = some (key :: toks) →
      startsWithHash (strTrim line) = false →
      strLower key = "match" →
      ((strLower (joinSpace toks) = "all" →
          stepLineW fs bd recurse ap stack reg sc line = (reg, "global")) ∧
       (¬ strLower (joinSpace toks) = "all" →
          stepLineW fs bd recurse ap stack reg sc line =
            (matchRegister reg (joinSpace toks) ap, joinSpace toks)))) ∧
    parse fsReset "/" initRegistry "/c" "global" 0 [] =
      [("global", ⟨"global", none, [],
          [("b", ⟨"B", "2", "/c", ["/c"]⟩)]⟩),
       ("X", ⟨"X", some "/c", ["/c"],
          [("a", ⟨"A", "1", "/c", ["/c"]⟩)]⟩)] := by
  constructor
  · intro fs bd recurse ap stack reg sc line key toks hsplit hhash hkey
    have hne : ¬ (strTrim line = "" ∨ startsWithHash (strTrim line) = true) := by
      rintro (h0 | h0)
      · rw [h0] at hsplit
        simp [shlexSplit, shlexAux] at hsplit
      · rw [h0] at hhash
        cases hhash
    constructor
    · intro hall
      simp [stepLineW, hne, hsplit, hkey, hall]
    · intro hall
      simp [stepLineW, hne, hsplit, hkey, hall]
  · decide

theorem match_all_reset_witness :
    shlexSplit (strTrim "Match All") = some ["Match", "All"] ∧
    startsWithHash (strTrim "Match All") = false ∧
    strLower "Match" = "match" ∧
    strLower (joinSpace ["All"]) = "all" ∧
    stepLineW fsEmpty "/" (fun r _ _ _ => r) "/f" [] initRegistry "X"
        "Match All" = (initRegistry, "global") :=
  ⟨by decide, by decide, by decide, by decide,
   ((match_all_reset.1 fsEmpty "/" (fun r _ _ _ => r) "/f" [] initRegistry "X"
       "Match All" "Match" ["All"] (by decide) (by decide) (by decide)).1
     (by decide))⟩

/-- `listLe` on cons cells, spelled arithmetically. -/
theorem listLe_cons_iff {a b : Char} {as bs : List Char} :
    listLe (a :: as) (b :: bs) = true ↔
      (a.toNat < b.toNat ∨ (a.toNat = b.toNat ∧ listLe as bs = true)) := by
  simp only [listLe]
  split <;> rename_i h1
  · simp [h1]
  · split <;> rename_i h2
    · simp
      omega
    · have hq : a.toNat = b.toNat := by omega
      simp [hq]

theorem char_eq_of_toNat {a b : Char} (h : a.toNat = b.toNat) : a = b := by
  apply Char.eq_of_val_eq
  apply UInt32.eq_of_val_eq
  apply Fin.eq_of_val_eq
  exact h

theorem listLe_total : ∀ a b : List Char, listLe a b = true ∨ listLe b a = true
  | [], _ => Or.inl rfl
  | _ :: _, [] => Or.inr rfl
  | a :: as, b :: bs => by
      rw [listLe_cons_iff, listLe_cons_iff]
      rcases Nat.lt_trichotomy a.toNat b.toNat with h | h | h
      · exact Or.inl (Or.inl h)
      · rcases listLe_total as bs with ht | ht
        · exact Or.inl (Or.inr ⟨h, ht⟩)
        · exact Or.inr (Or.inr ⟨h.symm, ht⟩)
      · exact Or.inr (Or.inl h)

theorem listLe_trans : ∀ a b c : List Char,
    listLe a b = true → listLe b c = true → listLe a c = true
  | [], _, _, _, _ => rfl
  | _ :: _, [], _, h1, _ => by cases h1
  | _ :: _, _ :: _, [], _, h2 => by cases h2
  | a :: as, b :: bs, c :: cs, h1, h2 => by
      rw [listLe_cons_iff] at h1 h2 ⊢
      rcases h1 with h1 | ⟨h1, h1'⟩ <;> rcases h2 with h2 | ⟨h2, h2'⟩
      · exact Or.inl (by omega)
      · exact Or.inl (by omega)
      · exact Or.inl (by omega)
      · exact Or.inr ⟨by omega, listLe_trans as bs cs h1' h2'⟩

theorem listLe_antisymm : ∀ a b : List Char,
    listLe a b = true → listLe b a = true → a = b
  | [], [], _, _ => rfl
  | [], _ :: _, _, h2 => by cases h2
  | _ :: _, [], h1, _ => by cases h1
  | a :: as, b :: bs, h1, h2 => by
      rw [listLe_cons_iff] at h1 h2
      rcases h1 with h1 | ⟨h1, h1'⟩ <;> rcases h2 with h2 | ⟨h2, h2'⟩
      · omega
      · omega
      · omega
      · rw [char_eq_of_toNat h1, listLe_antisymm as bs h1' h2']

theorem str_eq_of_toList {a b : String} (h : a.toList = b.toList) : a = b := by
  cases a
  cases b
  simp only [String.toList] at h
  rw [h]

theorem strLeB_total (a b : String) : strLeB a b = true ∨ strLeB b a = true :=
  listLe_total a.toList b.toList

theorem strLeB_trans {a b c : String} (h1 : strLeB a b = true)
    (h2 : strLeB b c = true) : strLeB a c = true :=
  listLe_trans a.toList b.toList c.toList h1 h2

theorem strLeB_antisymm {a b : String} (h1 : strLeB a b = true)
    (h2 : strLeB b a = true) : a = b :=
  str_eq_of_toList (listLe_antisymm a.toList b.toList h1 h2)

theorem orderedInsertStr_perm (x : String) :
    ∀ l : List String, (orderedInsertStr x l).Perm (x :: l)
  | [] => List.Perm.refl _
  | y :: ys => by
      unfold orderedInsertStr
      split
      · exact List.Perm.refl _
      · exact ((orderedInsertStr_perm x ys).cons y).trans (List.Perm.swap x y ys)

theorem sortStrings_perm : ∀ l : List String, (sortStrings l).Perm l
  | [] => List.Perm.refl _
  | x :: xs =>
      (orderedInsertStr_perm x (sortStrings xs)).trans
        ((sortStrings_perm xs).cons x)

theorem orderedInsertStr_sorted (x : String) :
    ∀ l : List String, List.Pairwise (fun a b => strLeB a b = true) l →
      List.Pairwise (fun a b => strLeB a b = true) (orderedInsertStr x l)
  | [], _ => by simp [orderedInsertStr]
  | y :: ys, h => by
      unfold orderedInsertStr
      have h1 := (List.pairwise_cons.mp h).1
      have h2 := (List.pairwise_cons.mp h).2
      split <;> rename_i hxy
      · refine List.pairwise_cons.mpr ⟨?_, h⟩
        intro b hb
        rcases List.mem_cons.mp hb with hb | hb
        · rw [hb]
          exact hxy
        · exact strLeB_trans hxy (h1 b hb)
      · refine List.pairwise_cons.mpr ⟨?_, orderedInsertStr_sorted x ys h2⟩
        intro b hb
        rcases List.mem_cons.mp
            ((orderedInsertStr_perm x ys).mem_iff.mp hb) with hb | hb
        · rw [hb]
          rcases strLeB_total x y with ht | ht
          · exact absurd ht hxy
          · exact ht
        · exact h1 b hb

theorem sortStrings_sorted :
    ∀ l : List String, List.Pairwise (fun a b => strLeB a b = true) (sortStrings l)
  | [] => List.Pairwise.nil
  | x :: xs => orderedInsertStr_sorted x (sortStrings xs) (sortStrings_sorted xs)

/-- C6: non-absolute include patterns resolve against the fixed base
directory; glob results are processed in ascending sorted order — the sort
is invariant under any reordering the collaborator returns — and the
concrete samples show `a.conf` winning over `b.conf` and base-relative
(not include-relative) resolution. -/
theorem include_resolution_order :
    (∀ l₁ l₂ : List String, l₁.Perm l₂ → sortStrings l₁ = sortStrings l₂) ∧
    (∀ (fs : FS) (bd : String)
        (recurse : Registry → String → String → List String → Registry)
        (reg : Registry) (pattern sc : String) (stack : List String),
      isabs pattern = false →
      handleIncludeW fs bd recurse reg pattern sc stack =
        (sortStrings (fs.glob (pathJoin bd pattern))).foldl
          (fun r p => recurse r p sc stack) reg) ∧
    parse fsGlob "/" initRegistry "/r" "global" 0 [] =
      [("global", ⟨"global", none, [],
        [("port", ⟨"Port", "1", "/inc/a.conf",
          ["/inc/a.conf", "/inc/b.conf"]⟩)]⟩)] ∧
    parse fsBaseRel "/base" initRegistry "/base/sub/main" "global" 0 [] =
      [("global", ⟨"global", none, [],
        [("who", ⟨"Who", "base", "/base/x.conf", ["/base/x.conf"]⟩)]⟩)] := by
  refine ⟨?_, ?_, by decide, by decide⟩
  · intro l₁ l₂ hp
    haveI : IsAntisymm String (fun a b => strLeB a b = true) :=
      ⟨fun _ _ => strLeB_antisymm⟩
    exact List.eq_of_perm_of_sorted
      ((sortStrings_perm l₁).trans (hp.trans (sortStrings_perm l₂).symm))
      (sortStrings_sorted l₁) (sortStrings_sorted l₂)
  · intro fs bd recurse reg pattern sc stack h
    simp [handleIncludeW, h]

theorem include_resolution_order_witness :
    (["/inc/b.conf", "/inc/a.conf"] : List String).Perm
        ["/inc/a.conf", "/inc/b.conf"] ∧
    sortStrings ["/inc/b.conf", "/inc/a.conf"] =
      sortStrings ["/inc/a.conf", "/inc/b.conf"] ∧
    isabs "x.conf" = false ∧
    handleIncludeW fsEmpty "/base" noRecurse initRegistry "x.conf"
        "global" [] =
      (sortStrings (fsEmpty.glob (pathJoin "/base" "x.conf"))).foldl
        (fun r p => noRecurse r p "global" []) initRegistry :=
  ⟨by decide,
   include_resolution_order.1 ["/inc/b.conf", "/inc/a.conf"]
     ["/inc/a.conf", "/inc/b.conf"] (by decide),
   by decide,
   include_resolution_order.2.1 fsEmpty "/base" noRecurse initRegistry
     "x.conf" "global" [] (by decide)⟩

theorem optFind_append_single (l : List (String × OptionRecord)) (k : String)
    (r : OptionRecord) (n : String) :
    optFind (l ++ [(k, r)]) n =
      match optFind l n with
      | some x => some x
      | none => if k = n then some r else none := by
  induction l with
  | nil => simp [optFind]
  | cons kv rest ih =>
      by_cases h : kv.1 = n
      · simp [optFind, h]
      · simp [optFind, h, ih]

theorem optFind_optSet (l : List (String × OptionRecord)) (k : String)
    (r : OptionRecord) (n : String) :
    optFind (optSet l k r) n = if n = k then some r else optFind l n := by
  induction l with
  | nil =>
      by_cases h : n = k <;> simp [optSet, optFind, h]
      exact fun h2 => absurd h2.symm h
  | cons kv rest ih =>
      by_cases h1 : kv.1 = k
      · by_cases h2 : n = k
        · simp [optSet, optFind, h1, h2]
        · have h3 : ¬ k = n := fun hx => h2 hx.symm
          have h4 : ¬ kv.1 = n := by rw [h1]; exact h3
          simp [optSet, optFind, h1, h2, h3, h4]
      · by_cases h2 : kv.1 = n
        · have h3 : ¬ n = k := by rw [← h2]; exact fun hx => h1 hx
          simp [optSet, optFind, h1, h2, h3]
        · simp [optSet, optFind, h1, h2, ih]

theorem optFind_mem {l : List (String × OptionRecord)} {n : String}
    {r : OptionRecord} (h : optFind l n = some r) : (n, r) ∈ l := by
  induction l with
  | nil => cases h
  | cons kv rest ih =>
      by_cases h1 : kv.1 = n
      · simp only [optFind, h1, if_pos] at h
        have : (n, r) = kv := by
          cases kv
          simp_all
        rw [this]
        exact List.mem_cons_self _ _
      · simp only [optFind, h1, if_neg, if_false] at h
        exact List.mem_cons_of_mem _ (ih h)

theorem mem_optSet {l : List (String × OptionRecord)} {k : String}
    {r : OptionRecord} {kv : String × OptionRecord}
    (h : kv ∈ optSet l k r) : kv ∈ l ∨ kv = (k, r) := by
  induction l with
  | nil =>
      simp [optSet] at h
      exact Or.inr h
  | cons kv0 rest ih =>
      by_cases h1 : kv0.1 = k
      · rw [optSet, if_pos h1] at h
        rcases List.mem_cons.mp h with h2 | h2
        · exact Or.inr h2
        · exact Or.inl (List.mem_cons_of_mem _ h2)
      · rw [optSet, if_neg h1] at h
        rcases List.mem_cons.mp h with h2 | h2
        · exact Or.inl (h2 ▸ List.mem_cons_self _ _)
        · rcases ih h2 with h3 | h3
          · exact Or.inl (List.mem_cons_of_mem _ h3)
          · exact Or.inr h3

theorem optFind_add (s : OptionStore) (k v f n : String) :
    optFind (s.add k v f).options n =
      if strLower k = n then
        match optFind s.options n with
        | none => some ⟨k, v, f, [f]⟩
        | some r => some ⟨r.name, r.value, r.location, appendNew r.appearance f⟩
      else optFind s.options n := by
  simp only [OptionStore.add]
  by_cases h : strLower k = n
  · subst h
    cases hf : optFind s.options (strLower k) with
    | none => simp [hf, optFind_append_single]
    | some r =>
        by_cases hmem : f ∈ r.appearance
        · simp [hf, hmem, appendNew]
        · simp [hf, hmem, appendNew, optFind_optSet]
  · cases hf : optFind s.options (strLower k) with
    | none =>
        simp only [optFind_append_single, if_neg h]
        cases hn : optFind s.options n <;> simp [hn, h]
    | some r =>
        by_cases hmem : f ∈ r.appearance
        · simp [hmem, h]
        · have h2 : ¬ n = strLower k := fun hx => h hx.symm
          simp [hmem, h, h2, optFind_optSet]

theorem optFind_registerAll :
    ∀ (regs : List (String × String × String)) (s : OptionStore) (n : String),
    optFind (registerAll s regs).options n =
      match optFind s.options n with
      | some r => some ⟨r.name, r.value, r.location,
          (regs.filter (fun t => strLower t.1 = n)).foldl
            (fun a t => appendNew a t.2.2) r.appearance⟩
      | none =>
          match regs.filter (fun t => strLower t.1 = n) with
          | [] => none
          | t :: ts => some ⟨t.1, t.2.1, t.2.2,
              ts.foldl (fun a t2 => appendNew a t2.2.2) [t.2.2]⟩
  | [], s, n => by
      cases hn : optFind s.options n <;> simp [registerAll, hn]
  | u :: us, s, n => by
      have step : registerAll s (u :: us) =
          registerAll (s.add u.1 u.2.1 u.2.2) us := rfl
      rw [step, optFind_registerAll us (s.add u.1 u.2.1 u.2.2) n, optFind_add]
      by_cases hu : strLower u.1 = n
      · rw [if_pos hu, List.filter_cons_of_pos (by simp [hu])]
        cases hn : optFind s.options n with
        | none => simp [hn]
        | some r => simp [hn]
      · rw [if_neg hu, List.filter_cons_of_neg (by simp [hu])]

theorem foldl_appendNew_nodup :
    ∀ (l acc : List String), acc.Nodup → (l.foldl appendNew acc).Nodup
  | [], _, h => h
  | x :: xs, acc, h => by
      rw [List.foldl_cons]
      apply foldl_appendNew_nodup xs
      unfold appendNew
      split
      · exact h
      · rename_i hx
        simp [List.nodup_append, h, hx]

theorem foldl_appendNew_toFinset :
    ∀ (l acc : List String),
      (l.foldl appendNew acc).toFinset = acc.toFinset ∪ l.toFinset
  | [], acc => by simp
  | x :: xs, acc => by
      rw [List.foldl_cons, foldl_appendNew_toFinset xs]
      have hstep : (appendNew acc x).toFinset = acc.toFinset ∪ {x} := by
        unfold appendNew
        split
        · rename_i hx
          rw [Finset.union_eq_left.mpr (by simp [hx])]
        · simp
      rw [hstep]
      ext a
      simp
      tauto

theorem firstDedup_length (l : List String) :
    (firstDedup l).length = l.toFinset.card := by
  have hnd : (firstDedup l).Nodup := foldl_appendNew_nodup l [] (by simp)
  have hfs : (firstDedup l).toFinset = l.toFinset := by
    rw [firstDedup, foldl_appendNew_toFinset]
    simp
  rw [← hfs, List.toFinset_card_of_nodup hnd]

/-- C1: after any sequence of registrations, a name's record carries the
name, value and location of the first matching registration; all later ones
only extend the appearance list, whose entries are the distinct registering
files in discovery order and whose length is the number of distinct files. -/
theorem first_wins_registration (scope : String)
    (regs : List (String × String × String)) (n : String)
    (t : String × String × String) (ts : List (String × String × String))
    (hfilter : regs.filter (fun r => strLower r.1 = n) = t :: ts) :
    optFind (registerAll (OptionStore.empty scope) regs).options n =
      some ⟨t.1, t.2.1, t.2.2, firstDedup ((t :: ts).map (fun r => r.2.2))⟩ ∧
    (firstDedup ((t :: ts).map (fun r => r.2.2))).length =
      ((t :: ts).map (fun r => r.2.2)).toFinset.card := by
  constructor
  · rw [optFind_registerAll]
    have hempty : optFind (OptionStore.empty scope).options n = none := rfl
    rw [hempty, hfilter]
    simp [firstDedup, appendNew, List.foldl_map]
  · exact firstDedup_length _

theorem first_wins_registration_witness :
    ([("Port", "22", "/root"), ("Port", "80", "/extra"), ("Other", "x", "/root")]
        : List (String × String × String)).filter
        (fun r => strLower r.1 = "port") =
      [("Port", "22", "/root"), ("Port", "80", "/extra")] ∧
    optFind (registerAll (OptionStore.empty "global")
        [("Port", "22", "/root"), ("Port", "80", "/extra"),
         ("Other", "x", "/root")]).options "port" =
      some ⟨"Port", "22", "/root",
        firstDedup (([("Port", "22", "/root"), ("Port", "80", "/extra")]
          : List (String × String × String)).map (fun r => r.2.2))⟩ ∧
    (firstDedup (([("Port", "22", "/root"), ("Port", "80", "/extra")]
        : List (String × String × String)).map (fun r => r.2.2))).length =
      (([("Port", "22", "/root"), ("Port", "80", "/extra")]
        : List (String × String × String)).map (fun r => r.2.2)).toFinset.card :=
  ⟨by decide,
   (first_wins_registration "global"
     [("Port", "22", "/root"), ("Port", "80", "/extra"), ("Other", "x", "/root")]
     "port" ("Port", "22", "/root") [("Port", "80", "/extra")] (by decide)).1,
   (first_wins_registration "global"
     [("Port", "22", "/root"), ("Port", "80", "/extra"), ("Other", "x", "/root")]
     "port" ("Port", "22", "/root") [("Port", "80", "/extra")] (by decide)).2⟩

theorem regFind_regSet (l : Registry) (k : String) (st : OptionStore)
    (n : String) :
    regFind (regSet l k st) n = if n = k then some st else regFind l n := by
  induction l with
  | nil =>
      by_cases h : n = k <;> simp [regSet, regFind, h]
      exact fun h2 => absurd h2.symm h
  | cons kv rest ih =>
      by_cases h1 : kv.1 = k
      · by_cases h2 : n = k
        · simp [regSet, regFind, h1, h2]
        · have h3 : ¬ k = n := fun hx => h2 hx.symm
          have h4 : ¬ kv.1 = n := by rw [h1]; exact h3
          simp [regSet, regFind, h1, h2, h3, h4]
      · by_cases h2 : kv.1 = n
        · have h3 : ¬ n = k := by rw [← h2]; exact fun hx => h1 hx
          simp [regSet, regFind, h1, h2, h3]
        · simp [regSet, regFind, h1, h2, ih]

theorem regSet_regSet (l : Registry) (k : String) (a b : OptionStore) :
    regSet (regSet l k a) k b = regSet l k b := by
  induction l with
  | nil => simp [regSet]
  | cons kv rest ih =>
      by_cases h : kv.1 = k
      · simp [regSet, h]
      · simp [regSet, h, ih]

theorem mem_regSet {l : Registry} {k : String} {st : OptionStore}
    {kv : String × OptionStore} (h : kv ∈ regSet l k st) :
    kv ∈ l ∨ kv = (k, st) := by
  induction l with
  | nil =>
      simp [regSet] at h
      exact Or.inr h
  | cons kv0 rest ih =>
      by_cases h1 : kv0.1 = k
      · rw [regSet, if_pos h1] at h
        rcases List.mem_cons.mp h with h2 | h2
        · exact Or.inr h2
        · exact Or.inl (List.mem_cons_of_mem _ h2)
      · rw [regSet, if_neg h1] at h
        rcases List.mem_cons.mp h with h2 | h2
        · exact Or.inl (h2 ▸ List.mem_cons_self _ _)
        · rcases ih h2 with h3 | h3
          · exact Or.inl (List.mem_cons_of_mem _ h3)
          · exact Or.inr h3

theorem regFind_mem {l : Registry} {n : String} {st : OptionStore}
    (h : regFind l n = some st) : (n, st) ∈ l := by
  induction l with
  | nil => cases h
  | cons kv rest ih =>
      by_cases h1 : kv.1 = n
      · simp only [regFind, h1, if_pos] at h
        have : (n, st) = kv := by
          cases kv
          simp_all
        rw [this]
        exact List.mem_cons_self _ _
      · simp only [regFind, h1, if_neg, if_false] at h
        exact List.mem_cons_of_mem _ (ih h)

theorem mem_appendNew_self (l : List String) (x : String) :
    x ∈ appendNew l x := by
  unfold appendNew
  split
  · assumption
  · simp

theorem storeWF_add (s : OptionStore) (k v f : String) (h : storeWF s) :
    storeWF (s.add k v f) := by
  intro kv hkv
  simp only [OptionStore.add] at hkv
  cases hf : optFind s.options (strLower k) with
  | none =>
      rw [hf] at hkv
      simp only at hkv
      rcases List.mem_append.mp hkv with h2 | h2
      · exact h kv h2
      · have : kv = (strLower k, (⟨k, v, f, [f]⟩ : OptionRecord)) := by
          simpa using h2
        rw [this]
        exact ⟨rfl, by simp⟩
  | some r =>
      simp only [hf] at hkv
      by_cases hmem : f ∈ r.appearance
      · rw [if_pos hmem] at hkv
        exact h kv hkv
      · rw [if_neg hmem] at hkv
        simp only at hkv
        rcases mem_optSet hkv with h2 | h2
        · exact h kv h2
        · have hwf := h (strLower k, r) (optFind_mem hf)
          obtain ⟨hh, hn⟩ := hwf
          rw [h2]
          constructor
          · rcases hx : r.appearance with _ | ⟨a, rest⟩
            · rw [hx] at hh
              cases hh
            · rw [hx] at hh
              simpa using hh
          · simp [List.nodup_append, hn, hmem]

theorem storeWF_update_appearance (s : OptionStore) (f : String)
    (h : storeWF s) : storeWF (s.update_appearance f) := by
  intro kv hkv
  exact h kv hkv

theorem add_seen_noop (s : OptionStore) (k v f : String) (r : OptionRecord)
    (hf : optFind s.options (strLower k) = some r) (hmem : f ∈ r.appearance) :
    s.add k v f = s := by
  simp [OptionStore.add, hf, hmem]

theorem optionAdd_idem (s : OptionStore) (k v f : String) :
    (s.add k v f).add k v f = s.add k v f := by
  have h := optFind_add s k v f (strLower k)
  rw [if_pos rfl] at h
  cases hf : optFind s.options (strLower k) with
  | none =>
      rw [hf] at h
      simp only at h
      exact add_seen_noop _ k v f _ h (by simp)
  | some r =>
      rw [hf] at h
      simp only at h
      exact add_seen_noop _ k v f _ h (mem_appendNew_self _ _)

theorem optionRegister_idem (reg : Registry) (scope k v f : String) :
    optionRegister (optionRegister reg scope k v f) scope k v f =
      optionRegister reg scope k v f := by
  simp only [optionRegister, getStore]
  cases hg : regFind reg scope with
  | some st =>
      simp only [hg]
      rw [regFind_regSet]
      simp [regSet_regSet]
      rw [optionAdd_idem]
  | none =>
      simp only [hg]
      rw [regFind_regSet]
      simp [regSet_regSet]
      rw [optionAdd_idem]

/-- C7: every record keeps `location` equal to its first appearance entry
and a duplicate-free appearance list, under both store operations; and
re-registering the same `(scope, name, filePath)` triple is a no-op at the
store level and at the registry level. -/
theorem option_record_invariant (s : OptionStore) (key value filepath : String)
    (hwf : storeWF s) :
    storeWF (s.add key value filepath) ∧
    storeWF (s.update_appearance filepath) ∧
    (s.add key value filepath).add key value filepath = s.add key value filepath ∧
    (∀ (reg : Registry) (scope : String),
      optionRegister (optionRegister reg scope key value filepath) scope key
          value filepath =
        optionRegister reg scope key value filepath) :=
  ⟨storeWF_add s key value filepath hwf,
   storeWF_update_appearance s filepath hwf,
   optionAdd_idem s key value filepath,
   fun reg scope => optionRegister_idem reg scope key value filepath⟩

theorem option_record_invariant_witness :
    storeWF (OptionStore.empty "global") ∧
    storeWF ((OptionStore.empty "global").add "Port" "22" "/root") ∧
    ((OptionStore.empty "global").add "Port" "22" "/root").add "Port" "22"
        "/root" =
      (OptionStore.empty "global").add "Port" "22" "/root" ∧
    optionRegister (optionRegister initRegistry "global" "Port" "22" "/root")
        "global" "Port" "22" "/root" =
      optionRegister initRegistry "global" "Port" "22" "/root" := by
  have hwf : storeWF (OptionStore.empty "global") := by
    intro kv hkv
    simp [OptionStore.empty] at hkv
  have h := option_record_invariant (OptionStore.empty "global") "Port" "22"
    "/root" hwf
  exact ⟨hwf, h.1, h.2.2.1, h.2.2.2 initRegistry "global"⟩

theorem foldl_recurse_preserves (P : Registry → Prop)
    (recurse : Registry → String → String → List String → Registry)
    (hrec : ∀ r p sc stk, P r → P (recurse r p sc stk))
    (sc : String) (stack : List String) :
    ∀ (l : List String) (reg : Registry), P reg →
      P (l.foldl (fun r p => recurse r p sc stack) reg)
  | [], _, h => h
  | x :: xs, reg, h => by
      rw [List.foldl_cons]
      exact foldl_recurse_preserves P recurse hrec sc stack xs _ (hrec _ _ _ _ h)

theorem handleIncludeW_preserves (P : Registry → Prop) (fs : FS) (bd : String)
    (recurse : Registry → String → String → List String → Registry)
    (hrec : ∀ r p sc stk, P r → P (recurse r p sc stk))
    (reg : Registry) (pattern sc : String) (stack : List String)
    (h : P reg) : P (handleIncludeW fs bd recurse reg pattern sc stack) := by
  unfold handleIncludeW
  split <;>
    exact foldl_recurse_preserves P recurse hrec sc stack _ reg h

theorem stepLineW_preserves (P : Registry → Prop)
    (hmatch : ∀ reg v ap, P reg → P (matchRegister reg v ap))
    (hopt : ∀ reg sc k v ap, strLower k ≠ "include" → strLower k ≠ "match" →
      P reg → P (optionRegister reg sc k v ap))
    (fs : FS) (bd : String)
    (recurse : Registry → String → String → List String → Registry)
    (hrec : ∀ r p sc stk, P r → P (recurse r p sc stk))
    (ap : String) (stack : List String) (reg : Registry) (sc line : String)
    (h : P reg) : P (stepLineW fs bd recurse ap stack reg sc line).1 := by
  simp only [stepLineW]
  split
  · exact h
  split
  · exact h
  · exact h
  · split
    · exact handleIncludeW_preserves P fs bd recurse hrec reg _ _ stack h
    · split
      · split
        · exact h
        · exact hmatch _ _ _ h
      · rename_i h1 h2
        exact hopt _ _ _ _ _ h1 h2 h

theorem processLinesW_preserves (P : Registry → Prop)
    (hmatch : ∀ reg v ap, P reg → P (matchRegister reg v ap))
    (hopt : ∀ reg sc k v ap, strLower k ≠ "include" → strLower k ≠ "match" →
      P reg → P (optionRegister reg sc k v ap))
    (fs : FS) (bd : String)
    (recurse : Registry → String → String → List String → Registry)
    (hrec : ∀ r p sc stk, P r → P (recurse r p sc stk))
    (ap : String) (stack : List String) :
    ∀ (lines : List String) (reg : Registry) (sc : String), P reg →
      P (processLinesW fs bd recurse ap stack lines reg sc).1
  | [], _, _, h => h
  | line :: rest, reg, sc, h => by
      rw [processLinesW]
      exact processLinesW_preserves P hmatch hopt fs bd recurse hrec ap stack
        rest _ _
        (stepLineW_preserves P hmatch hopt fs bd recurse hrec ap stack reg sc
          line h)

theorem parseF_preserves (P : Registry → Prop)
    (hmatch : ∀ reg v ap, P reg → P (matchRegister reg v ap))
    (hopt : ∀ reg sc k v ap, strLower k ≠ "include" → strLower k ≠ "match" →
      P reg → P (optionRegister reg sc k v ap)) :
    ∀ (fuel : Nat) (fs : FS) (bd : String) (reg : Registry) (fp sc : String)
      (depth : Nat) (stack : List String), P reg →
      P (parseF fuel fs bd reg fp sc depth stack)
  | 0, _, _, _, _, _, _, _, h => h
  | fuel + 1, fs, bd, reg, fp, sc, depth, stack, h => by
      rw [parseF_succ]
      split
      · exact h
      split
      · exact h
      split
      · exact h
      · split
        · exact h
        · exact processLinesW_preserves P hmatch hopt fs bd _
            (fun r p sc2 stk hr =>
              parseF_preserves P hmatch hopt fuel fs bd r p sc2 (depth + 1)
                stk hr)
            _ _ _ reg sc h

theorem regSet_keys (l : Registry) (k : String) (st : OptionStore) :
    (regSet l k st).map Prod.fst =
      if k ∈ l.map Prod.fst then l.map Prod.fst else l.map Prod.fst ++ [k] := by
  induction l with
  | nil => simp [regSet]
  | cons kv rest ih =>
      by_cases h : kv.1 = k
      · simp [regSet, h]
      · have h3 : ¬ k = kv.1 := fun hx => h hx.symm
        by_cases h2 : k ∈ rest.map Prod.fst <;>
          simp [regSet, h, ih, h2, h3]

theorem keysNodup_regSet {l : Registry} {k : String} {st : OptionStore}
    (hn : keysNodup l) : keysNodup (regSet l k st) := by
  unfold keysNodup at *
  rw [regSet_keys]
  split
  · exact hn
  · rename_i h
    simp [List.nodup_append, hn, h]

theorem keysNodup_matchRegister {reg : Registry} {v ap : String}
    (hn : keysNodup reg) : keysNodup (matchRegister reg v ap) := by
  simp only [matchRegister, getStore]
  cases hg : regFind reg v with
  | some st =>
      simp only [hg]
      exact keysNodup_regSet hn
  | none =>
      simp only [hg]
      exact keysNodup_regSet (keysNodup_regSet hn)

theorem keysNodup_optionRegister {reg : Registry} {sc k v ap : String}
    (hn : keysNodup reg) : keysNodup (optionRegister reg sc k v ap) := by
  simp only [optionRegister, getStore]
  cases hg : regFind reg sc with
  | some st =>
      simp only [hg]
      exact keysNodup_regSet hn
  | none =>
      simp only [hg]
      exact keysNodup_regSet (keysNodup_regSet hn)

/-- C4: the registry keeps one entry per scope identifier across any parse
(so all `Match` lines with one condition merge into a single scope), and
the §8 sample yields exactly one `Match` entry with the first-wins merge of
options and the de-duplicated appearance list. -/
theorem match_merge_across_files :
    (∀ (fs : FS) (bd : String) (reg : Registry) (fp sc : String) (depth : Nat)
        (stack : List String),
      keysNodup reg → keysNodup (parse fs bd reg fp sc depth stack)) ∧
    get_structured_data
        (parse fsMerge "/" initRegistry "/root.conf" "global" 0 []) =
      [("Match", OutVal.matches
        [⟨"User bob", some "/root.conf", ["/root.conf", "/extra"],
          [("Banner", ⟨"one", "/root.conf", ["/root.conf", "/extra"]⟩),
           ("X11Forwarding", ⟨"yes", "/extra", ["/extra"]⟩)]⟩])] := by
  constructor
  · intro fs bd reg fp sc depth stack hn
    exact parseF_preserves keysNodup
      (fun _ _ _ h => keysNodup_matchRegister h)
      (fun _ _ _ _ _ _ _ h => keysNodup_optionRegister h)
      22 fs bd reg fp sc depth stack hn
  · decide

theorem match_merge_across_files_witness :
    keysNodup initRegistry ∧
    keysNodup (parse fsMerge "/" initRegistry "/root.conf" "global" 0 []) := by
  have hn : keysNodup initRegistry := by
    unfold keysNodup initRegistry
    simp
  exact ⟨hn,
    match_merge_across_files.1 fsMerge "/" initRegistry "/root.conf" "global" 0
      [] hn⟩

theorem storeKeysOK_add {st : OptionStore} (hst : storeKeysOK st)
    {k v ap : String} (hki : strLower k ≠ "include")
    (hkm : strLower k ≠ "match") : storeKeysOK (st.add k v ap) := by
  intro orr horr
  simp only [OptionStore.add] at horr
  cases hf : optFind st.options (strLower k) with
  | none =>
      simp only [hf] at horr
      rcases List.mem_append.mp horr with h2 | h2
      · exact hst orr h2
      · have : orr = (strLower k, (⟨k, v, ap, [ap]⟩ : OptionRecord)) := by
          simpa using h2
        rw [this]
        exact ⟨rfl, hkm, hki⟩
  | some r =>
      simp only [hf] at horr
      by_cases hmem : ap ∈ r.appearance
      · rw [if_pos hmem] at horr
        exact hst orr horr
      · rw [if_neg hmem] at horr
        simp only at horr
        rcases mem_optSet horr with h2 | h2
        · exact hst orr h2
        · have hr := hst (strLower k, r) (optFind_mem hf)
          rw [h2]
          exact ⟨hr.1, hr.2.1, hr.2.2⟩

theorem storeKeysOK_update_appearance {st : OptionStore}
    (hst : storeKeysOK st) (ap : String) :
    storeKeysOK (st.update_appearance ap) := by
  intro orr horr
  exact hst orr horr

theorem storeKeysOK_empty (sc : String) : storeKeysOK (OptionStore.empty sc) := by
  intro orr horr
  simp [OptionStore.empty] at horr

theorem optKeysOK_matchRegister {reg : Registry} {v ap : String}
    (h : optKeysOK reg) : optKeysOK (matchRegister reg v ap) := by
  simp only [matchRegister, getStore]
  cases hg : regFind reg v with
  | some st =>
      simp only [hg]
      intro kv hkv
      rcases mem_regSet hkv with h2 | h2
      · exact h kv h2
      · rw [h2]
        exact storeKeysOK_update_appearance (h (v, st) (regFind_mem hg)) ap
  | none =>
      simp only [hg]
      intro kv hkv
      rcases mem_regSet hkv with h2 | h2
      · rcases mem_regSet h2 with h3 | h3
        · exact h kv h3
        · rw [h3]
          exact storeKeysOK_empty v
      · rw [h2]
        exact storeKeysOK_update_appearance (storeKeysOK_empty v) ap

theorem optKeysOK_optionRegister {reg : Registry} {sc k v ap : String}
    (hki : strLower k ≠ "include") (hkm : strLower k ≠ "match")
    (h : optKeysOK reg) : optKeysOK (optionRegister reg sc k v ap) := by
  simp only [optionRegister, getStore]
  cases hg : regFind reg sc with
  | some st =>
      simp only [hg]
      intro kv hkv
      rcases mem_regSet hkv with h2 | h2
      · exact h kv h2
      · rw [h2]
        exact storeKeysOK_add (h (sc, st) (regFind_mem hg)) hki hkm
  | none =>
      simp only [hg]
      intro kv hkv
      rcases mem_regSet hkv with h2 | h2
      · rcases mem_regSet h2 with h3 | h3
        · exact h kv h3
        · rw [h3]
          exact storeKeysOK_empty sc
      · rw [h2]
        exact storeKeysOK_add (storeKeysOK_empty sc) hki hkm

theorem mem_dictSet {l : List (String × OutVal)} {k : String} {vv : OutVal}
    {kv : String × OutVal} (h : kv ∈ dictSet l k vv) :
    kv ∈ l ∨ kv = (k, vv) := by
  unfold dictSet at h
  split at h
  · rcases List.mem_map.mp h with ⟨a, ha, hfa⟩
    by_cases h2 : a.1 = k
    · rw [if_pos h2] at hfa
      exact Or.inr hfa.symm
    · rw [if_neg h2] at hfa
      exact Or.inl (hfa ▸ ha)
  · rcases List.mem_append.mp h with h2 | h2
    · exact Or.inl h2
    · exact Or.inr (by simpa using h2)

theorem dictSet_key_mem (l : List (String × OutVal)) (k : String)
    (vv : OutVal) : k ∈ (dictSet l k vv).map Prod.fst := by
  unfold dictSet
  split
  · rename_i hany
    rcases List.any_eq_true.mp hany with ⟨kv0, hkv0, h1⟩
    have h1' : kv0.1 = k := by simpa using h1
    have hm : (k, vv) ∈ l.map (fun kv => if kv.1 = k then (k, vv) else kv) :=
      List.mem_map.mpr ⟨kv0, hkv0, by simp [h1']⟩
    exact List.mem_map.mpr ⟨(k, vv), hm, rfl⟩
  · simp

/-- C10: no parse ever registers an option whose key lower-cases to
`match` or `include` (such lines are dispatched as directives), so the
root-level `"Match"` key of the structured output cannot collide with a
global option, and it is present exactly when a non-global scope exists. -/
theorem match_key_no_collision :
    (∀ (fs : FS) (bd : String) (reg : Registry) (fp sc : String) (depth : Nat)
        (stack : List String),
      optKeysOK reg → optKeysOK (parse fs bd reg fp sc depth stack)) ∧
    optKeysOK initRegistry ∧
    (∀ reg : Registry, optKeysOK reg →
      (∀ (k : String) (e : OptionExport),
        (k, OutVal.opt e) ∈ get_structured_data reg →
        strLower k ≠ "match" ∧ strLower k ≠ "include") ∧
      ("Match" ∈ (get_structured_data reg).map Prod.fst ↔
        ∃ kv ∈ reg, kv.1 ≠ "global")) := by
  refine ⟨?_, ?_, ?_⟩
  · intro fs bd reg fp sc depth stack h
    exact parseF_preserves optKeysOK
      (fun _ _ _ h2 => optKeysOK_matchRegister h2)
      (fun _ _ _ _ _ h1 h2 h3 => optKeysOK_optionRegister h1 h2 h3)
      22 fs bd reg fp sc depth stack h
  · intro kv hkv
    have : kv = ("global", OptionStore.empty "global") := by
      simpa [initRegistry] using hkv
    rw [this]
    exact storeKeysOK_empty "global"
  · intro reg h
    have hglobal : ∀ (k : String) (e : OptionExport),
        (k, OutVal.opt e) ∈ (match regFind reg "global" with
          | some s => s.exportOptions.map
              (fun kv : String × OptionExport => (kv.1, OutVal.opt kv.2))
          | none => ([] : List (String × OutVal))) →
        strLower k ≠ "match" ∧ strLower k ≠ "include" := by
      intro k e hk
      cases hg : regFind reg "global" with
      | none =>
          rw [hg] at hk
          simp at hk
      | some s =>
          rw [hg] at hk
          rcases List.mem_map.mp hk with ⟨a, ha, hfa⟩
          rcases List.mem_map.mp ha with ⟨orr, horr, hoa⟩
          have hs := h ("global", s) (regFind_mem hg) orr horr
          have hk1 : k = orr.2.name := by
            have hfst : a.1 = k := by
              have := congrArg Prod.fst hfa
              simpa using this
            have ha1 : orr.2.name = a.1 := by
              have := congrArg Prod.fst hoa
              simpa using this
            rw [← hfst, ha1]
          rw [hk1, ← hs.1]
          exact ⟨hs.2.1, hs.2.2⟩
    constructor
    · intro k e hk
      simp only [get_structured_data] at hk
      split at hk
      · exact hglobal k e hk
      · rcases mem_dictSet hk with h2 | h2
        · exact hglobal k e h2
        · simp at h2
    · constructor
      · intro hmem
        by_contra hno
        push_neg at hno
        have hfilter : reg.filter (fun kv => ¬ kv.1 = "global") = [] := by
          rw [List.filter_eq_nil_iff]
          intro a ha
          simp [hno a ha]
        simp only [get_structured_data, hfilter] at hmem
        simp only [List.map_nil, List.isEmpty_nil, if_true] at hmem
        cases hg : regFind reg "global" with
        | none =>
            rw [hg] at hmem
            simp at hmem
        | some s =>
            rw [hg] at hmem
            rcases List.mem_map.mp hmem with ⟨kv2, hkv2, hfst⟩
            rcases List.mem_map.mp hkv2 with ⟨a, ha, hfa⟩
            rcases List.mem_map.mp ha with ⟨orr, horr, hoa⟩
            have hs := h ("global", s) (regFind_mem hg) orr horr
            have hname : orr.2.name = "Match" := by
              have h1 := congrArg Prod.fst hoa
              have h2 := congrArg Prod.fst hfa
              simp only at h1 h2
              rw [← hfst, ← h2, ← h1]
            have hm : orr.1 = "match" := by
              rw [hs.1, hname]
              rfl
            exact hs.2.1 hm
      · rintro ⟨kv, hkv, hne⟩
        have hmem2 : kv ∈ reg.filter (fun kv2 => ¬ kv2.1 = "global") :=
          List.mem_filter.mpr ⟨hkv, by simpa using hne⟩
        simp only [get_structured_data]
        have hne3 : ((reg.filter (fun kv2 => ¬ kv2.1 = "global")).map
            (fun kv2 => kv2.2.toMatchEntry)).isEmpty = false := by
          cases hq : reg.filter (fun kv2 => ¬ kv2.1 = "global") with
          | nil =>
              rw [hq] at hmem2
              cases hmem2
          | cons a as => simp [hq]
        rw [hne3]
        simp only [Bool.false_eq_true, if_false]
        exact dictSet_key_mem _ "Match" _

theorem match_key_no_collision_witness :
    optKeysOK (parse fsMerge "/" initRegistry "/root.conf" "global" 0 []) ∧
    (("Match" ∈ (get_structured_data initRegistry).map Prod.fst) ↔
      ∃ kv ∈ initRegistry, kv.1 ≠ "global") :=
  ⟨match_key_no_collision.1 fsMerge "/" initRegistry "/root.conf" "global" 0 []
     match_key_no_collision.2.1,
   (match_key_no_collision.2.2 initRegistry match_key_no_collision.2.1).2⟩
